import Mathlib

/-!
Verification development for the YugabyteDB client write-path sources:

* `src/yb/integration-tests/update_scan_delta_compact-test.cc` — the
  insert/update/scan driver (`InsertBaseData`, `UpdateRows`, `ScanRows`,
  `MakeRow`, `WaitForLastBatchAndFlush`) built on a manual-flush
  `YBSession` and a `Synchronizer`.
* `src/yb/client/async_initializer.h` — `AsyncClientInitialiser`
  (one-shot asynchronous bootstrap of a shared client handle).

The driver loops are embedded as event traces over an explicit session
state; the parts of the system only declared here (the session/synchronizer
internals, the scanner/delta-store read path, the `InitClient` body) are
modelled from the design document, as indicated on each definition.

Machine integers: every `int64_t` reaching these loops is a key, an
iteration count, or a loop bound — nonnegative and far below `2^63` — so
they are embedded as `Nat` (no overflow is reachable).
-/

namespace YB

/-- The status values carried by callbacks and `Synchronizer::Wait`. -/
inductive Status where
  | ok : Status
  | error : String → Status
  deriving DecidableEq, Repr

/-- Whether a mutation is a `KuduInsert` or a `KuduUpdate`. -/
inductive OpKind where
  | insert : OpKind
  | update : OpKind
  deriving DecidableEq, Repr

/-- A `YBPartialRow` for the test schema
`(key INT64 NOT NULL PRIMARY KEY, string STRING NOT NULL, int64 INT64 NOT NULL)`:
each column is optionally set (`SetInt64` / `SetStringCopy`). -/
structure PartialRow where
  key : Option Nat
  strVal : Option String
  int64Val : Option Nat
  deriving DecidableEq, Repr

/-- A mutation buffered in a `YBSession`: an insert or update carrying a
partial row. -/
structure Mutation where
  kind : OpKind
  row : PartialRow
  deriving DecidableEq, Repr

/-- `UpdateScanDeltaCompactionTest::MakeRow`: sets the passed values on the
row — key column to `key`, string column to the fixed string, int64 column
to `val`. -/
def MakeRow (key val : Nat) : PartialRow :=
  { key := some key, strVal := some "TODO random string", int64Val := some val }

/-- The insert mutation built in `InsertBaseData`:
`MakeRow(key, 0, insert->mutable_row())`. -/
def insertMutation (key : Nat) : Mutation :=
  { kind := .insert, row := MakeRow key 0 }

/-- The update mutation built in `UpdateRows`:
`MakeRow(key, iteration, update->mutable_row())`. -/
def updateMutation (iteration key : Nat) : Mutation :=
  { kind := .update, row := MakeRow key iteration }

/-- `kSessionBatchSize` from the test file. -/
def kSessionBatchSize : Nat := 1000

/-! ### The session/synchronizer state machine

The write loops interact with a manual-flush `YBSession` and one
`Synchronizer` through five primitive actions.  The session/synchronizer
implementation is not part of these sources, so its state is modelled from
the design document: the synchronizer is a single-producer completion cell
holding `Option Status`, the session holds the buffered mutations and at
most one in-flight flush.  A flush's completion callback fires
asynchronously; the model delivers it at the `Wait` that observes it
(the latest point allowed), which is sound for the discipline and
accounting properties proved here because the loops `Reset` the
synchronizer before issuing the next `FlushAsync`, so no completion can be
delivered into a cell that is later cleared. -/

/-- One primitive action of the write loops. -/
inductive Event where
  /-- `last_s_cb.Run(Status::OK())`: resolve the synchronizer with OK. -/
  | preResolve : Event
  /-- `session->Apply(op)`: buffer a mutation. -/
  | apply : Mutation → Event
  /-- `last_s->Wait()`: block until the synchronizer is resolved. -/
  | wait : Event
  /-- `last_s->Reset()`: clear the synchronizer. -/
  | reset : Event
  /-- `session->FlushAsync(last_s_cb)`: take ownership of the buffered
  mutations and send them as one batch. -/
  | flushAsync : Event
  deriving DecidableEq, Repr

/-- Modelled from the spec: the state of one manual-flush Write Session
plus its `Synchronizer`, with accounting fields for the proofs.
`outstanding` is whether a flush has been issued whose completion has not
yet been observed; `flushed` records the batches handed to `FlushAsync`
in order; `observed` counts completion signals observed by a blocking
`Wait`; `immediateWaits` counts `Wait` calls that returned immediately
because the synchronizer was already resolved. -/
structure SessionState where
  resolved : Option Status
  outstanding : Bool
  buffered : List Mutation
  flushed : List (List Mutation)
  observed : Nat
  immediateWaits : Nat
  deriving DecidableEq, Repr

/-- The state of a freshly constructed session and synchronizer. -/
def initState : SessionState :=
  { resolved := none, outstanding := false, buffered := [], flushed := [],
    observed := 0, immediateWaits := 0 }

/-- Modelled from the spec: `Synchronizer::Wait` observed at the session
level.  If the synchronizer is already resolved, return its status
immediately without consuming anything.  Otherwise block; the wait can
return only if a flush is in flight, in which case its completion (OK in
the happy path the loops assert) is delivered and observed.  `none` means
the wait can never return (deadlock) or the returned status is an error
(`RETURN_NOT_OK`/`CHECK_OK` aborts the loop). -/
def waitResult (s : SessionState) : Option (Status × SessionState) :=
  match s.resolved with
  | some st => some (st, { s with immediateWaits := s.immediateWaits + 1 })
  | none =>
    if s.outstanding then
      some (Status.ok,
        { s with resolved := some Status.ok, outstanding := false,
                 observed := s.observed + 1 })
    else none

/-- One step of the session state machine.  `none` marks a violation:
a `Wait` that can never return or returns an error, or a `FlushAsync`
issued while another flush is still outstanding (the at-most-one-in-flight
contract of the Write Session). -/
def step (e : Event) (s : SessionState) : Option SessionState :=
  match e with
  | .preResolve => some { s with resolved := some Status.ok }
  | .apply m => some { s with buffered := s.buffered ++ [m] }
  | .wait =>
    match waitResult s with
    | some (Status.ok, s') => some s'
    | some (Status.error _, _) => none
    | none => none
  | .reset => some { s with resolved := none }
  | .flushAsync =>
    if s.outstanding then none
    else some { s with flushed := s.flushed ++ [s.buffered], buffered := [],
                       outstanding := true }

/-- Run a list of events from a state, failing if any step fails. -/
def runEvents : List Event → SessionState → Option SessionState
  | [], s => some s
  | e :: es, s => (step e s).bind (runEvents es)

/-! ### The write-loop traces

`WaitForLastBatchAndFlush(key, …)`: if `key % kSessionBatchSize == 0`,
wait for the previous batch, reset the synchronizer, and flush the
current one.  The batch size is the constant `kSessionBatchSize = 1000`
in the source; the traces are parameterised over it (`K`) so that the
design document's scenarios (e.g. `K = 100`) are instances. -/

/-- The events of one `WaitForLastBatchAndFlush(key, …)` call. -/
def wflbfEvents (K key : Nat) : List Event :=
  if key % K = 0 then [.wait, .reset, .flushAsync] else []

/-- The events of the inner write loop processing keys `0..m-1`:
each iteration applies the mutation for its key and then calls
`WaitForLastBatchAndFlush(key, …)`.  `f` builds the mutation from
the key (insert in `InsertBaseData`, update in `UpdateRows`). -/
def loopEvents (K : Nat) (f : Nat → Mutation) (m : Nat) : List Event :=
  (List.range m).flatMap (fun key => Event.apply (f key) :: wflbfEvents K key)

/-- The events of one full write pass: resolve the synchronizer with OK,
run the loop, call `WaitForLastBatchAndFlush(kSessionBatchSize, …)`
(whose key is always a multiple of the batch size, so it always fires),
and wait for the last flush. -/
def passEvents (K : Nat) (f : Nat → Mutation) (m : Nat) : List Event :=
  Event.preResolve :: loopEvents K f m ++ wflbfEvents K K ++ [Event.wait]

/-- The events of `UpdateScanDeltaCompactionTest::InsertBaseData` with
`rowCount` rows and batch size `K`. -/
def insertEvents (rowCount K : Nat) : List Event :=
  passEvents K insertMutation rowCount

/-- The events of one iteration of `UpdateScanDeltaCompactionTest::UpdateRows`
whose inner loop observes the stop latch after processing `stopAt` keys
(the loop condition is `key < row_count && stop_latch->count() > 0`, so the
pass updates keys `0..min stopAt rowCount - 1`), followed by the final
`WaitForLastBatchAndFlush(kSessionBatchSize, …)`, `last_s.Wait()` and
`last_s.Reset()`. -/
def updatePassEvents (rowCount K stopAt iteration : Nat) : List Event :=
  passEvents K (updateMutation iteration) (min stopAt rowCount) ++ [Event.reset]

/-! ### Closed forms for the state reached by a write pass -/

/-- The state right after `preResolve` at the start of a pass. -/
def s0 : SessionState :=
  { resolved := some Status.ok, outstanding := false, buffered := [],
    flushed := [], observed := 0, immediateWaits := 0 }

/-- The batches handed to `FlushAsync` by the in-loop calls, after the
flush at key `q*K` has been issued: batch `0` holds only key `0`
(the flush trigger fires right after applying key `0`), and batch `i`
(`1 ≤ i ≤ q`) holds keys `(i-1)*K + 1 .. i*K`. -/
def expFlushed (K : Nat) (f : Nat → Mutation) : Nat → List (List Mutation)
  | 0 => [[f 0]]
  | q + 1 => expFlushed K f q ++ [(List.range' (q * K + 1) K).map f]

/-- The session state after the loop has processed keys `0..m-1`. -/
def expMid (K : Nat) (f : Nat → Mutation) (m : Nat) : SessionState :=
  if m = 0 then s0 else
    let q := (m - 1) / K
    { resolved := none, outstanding := true,
      buffered := (List.range' (q * K + 1) (m - 1 - q * K)).map f,
      flushed := expFlushed K f q,
      observed := q, immediateWaits := 1 }

/-- The session state after a full pass over keys `0..m-1` (loop, final
`WaitForLastBatchAndFlush(kSessionBatchSize, …)`, final `Wait`). -/
def expFinal (K : Nat) (f : Nat → Mutation) (m : Nat) : SessionState :=
  if m = 0 then
    { resolved := some Status.ok, outstanding := false, buffered := [],
      flushed := [[]], observed := 1, immediateWaits := 1 }
  else
    let q := (m - 1) / K
    { resolved := some Status.ok, outstanding := false, buffered := [],
      flushed := expFlushed K f q ++
        [(List.range' (q * K + 1) (m - 1 - q * K)).map f],
      observed := q + 2, immediateWaits := 1 }

/-! ### Flush-pipelining discipline

An event-level checker for the backpressure contract: before each
`FlushAsync`, the completion of the previously issued flush must have
been observed by a `Wait`. -/

/-- Tracks whether a flush is outstanding along an event list; `none`
marks a `FlushAsync` issued while the previous flush's completion had
not yet been observed by a `Wait`. -/
def disciplineRun : List Event → Bool → Option Bool
  | [], b => some b
  | Event.flushAsync :: es, b => if b then none else disciplineRun es true
  | Event.wait :: es, _ => disciplineRun es false
  | _ :: es, b => disciplineRun es b

/-! ### The stored table and the scanner's merged read

The server-side MemStore/delta-store/compaction pipeline and the scanner
are not part of these sources; they are modelled from the design
document.  A flushed batch's mutations apply in buffer order, and the
position of a mutation in the concatenated flush history is its delta
sequence number: later (higher-sequence) mutations win per column. -/

/-- A materialised row of the test table. -/
structure Row where
  key : Nat
  strVal : String
  int64Val : Nat
  deriving DecidableEq, Repr

/-- Modelled from the spec: the effect of one flushed mutation on the
stored row for key `k`.  An insert establishes the row from its column
values; an update overwrites, per column independently, exactly the
columns it sets (last-writer-wins per column, §4.4); an update to an
absent row has no stored effect. -/
def applyMut (r : Option Row) (mu : Mutation) (k : Nat) : Option Row :=
  if mu.row.key = some k then
    match mu.kind with
    | .insert =>
      some { key := k, strVal := mu.row.strVal.getD "",
             int64Val := mu.row.int64Val.getD 0 }
    | .update =>
      match r with
      | some old =>
        some { key := k, strVal := mu.row.strVal.getD old.strVal,
               int64Val := mu.row.int64Val.getD old.int64Val }
      | none => none
  else r

/-- Modelled from the spec: the row a Scanner opened after the whole
history has been flushed reports for key `k` — base data merged with all
delta units in increasing sequence-number order. -/
def readRow (hist : List Mutation) (k : Nat) : Option Row :=
  hist.foldl (fun r mu => applyMut r mu k) none

/-- Modelled from the spec: the distinct primary keys such a Scanner
returns (no two live rows share a primary key, §3). -/
def scanKeys (hist : List Mutation) : List Nat :=
  (hist.filterMap (fun mu => mu.row.key)).dedup

/-! ### The Scanner's drain loop (`ScanRows`) -/

/-- A `YBScanner` after `Open()`: the rows of its pinned snapshot not yet
returned.  Modelled from the spec: the row sequence is finite and
non-restartable. -/
structure YBScanner where
  remaining : List Row
  deriving DecidableEq, Repr

/-- `YBScanner::HasMoreRows`. -/
def HasMoreRows (s : YBScanner) : Bool := !s.remaining.isEmpty

/-- `YBScanner::NextBatch`: hand out the next (at most `batchSize`) rows
of the sequence. -/
def NextBatch (batchSize : Nat) (s : YBScanner) : List Row × YBScanner :=
  (s.remaining.take batchSize, ⟨s.remaining.drop batchSize⟩)

/-- The drain loop of `ScanRows`: `while (scanner.HasMoreRows()) CHECK_OK(scanner.NextBatch(&rows))`,
collecting every returned row.  The server hands out at least one row per
batch while rows remain (`0 < batchSize`), so the loop terminates. -/
def drainScan (batchSize : Nat) (hbs : 0 < batchSize) (s : YBScanner) :
    List Row × YBScanner :=
  if h : s.remaining.isEmpty then ([], s)
  else
    let p := NextBatch batchSize s
    let rest := drainScan batchSize hbs p.2
    (p.1 ++ rest.1, rest.2)
  termination_by s.remaining.length
  decreasing_by
    simp only [NextBatch, List.length_drop]
    have hne : s.remaining ≠ [] := by
      intro hnil
      rw [hnil] at h
      exact h rfl
    have hpos : 0 < s.remaining.length := List.length_pos.mpr hne
    omega

/-! ### The session `Apply` fail-fast checks -/

/-- The caller errors `Apply` reports before buffering (§4.2/§7). -/
inductive ApplyError where
  | schemaMismatch
  | invalidPrimaryKey
  deriving DecidableEq, Repr

/-- Modelled from the spec: the fail-fast validation `YBSession::Apply`
performs against the test schema
`(key INT64 NOT NULL PRIMARY KEY, string STRING NOT NULL, int64 INT64 NOT NULL)`:
`InvalidPrimaryKey` if the primary key is absent, `SchemaMismatch` if a
NOT NULL column is left unset. -/
def applyCheck (row : PartialRow) : Option ApplyError :=
  if row.key = none then some ApplyError.invalidPrimaryKey
  else if row.strVal = none ∨ row.int64Val = none then some ApplyError.schemaMismatch
  else none

/-! ### The Async Bootstrap (`AsyncClientInitialiser`)

The header declares the fields; the `InitClient` body is not part of
these sources and is modelled from the design document. -/

/-- The shared client handle: pending, or one of the two terminal
states (§3 of the design). -/
inductive ClientCell where
  | pending
  | ready (handle : Nat)
  | failed (err : String)
  deriving DecidableEq, Repr

/-- A terminal outcome of a construction attempt. -/
inductive InitOutcome where
  | ready (handle : Nat)
  | failed (err : String)
  deriving DecidableEq, Repr

/-- Modelled from the spec: resolving the single-assignment result cell
behind `client_promise_`/`client_future_`: a pending cell moves to the
given terminal state; a cell already resolved is never reassigned. -/
def resolveCell : ClientCell → InitOutcome → ClientCell
  | ClientCell.pending, InitOutcome.ready h => ClientCell.ready h
  | ClientCell.pending, InitOutcome.failed e => ClientCell.failed e
  | c, _ => c

/-- `AsyncClientInitialiser` state, one field per member of the class in
`async_initializer.h`.  The builder, future identity and thread identity
are abstracted to tokens; `client_promise_` holds the shared result
cell. -/
structure AsyncClientInitialiser where
  client_builder_ : Nat
  client_promise_ : ClientCell
  client_future_ : Nat
  init_client_thread_ : Nat
  stopping_ : Bool
  deriving DecidableEq, Repr

/-- `AsyncClientInitialiser::Shutdown` (inline in the header):
`stopping_ = true`. -/
def Shutdown (s : AsyncClientInitialiser) : AsyncClientInitialiser :=
  { s with stopping_ := true }

/-- `AsyncClientInitialiser::get_client_future` (inline in the header):
returns the `client_future_` member. -/
def get_client_future (s : AsyncClientInitialiser) : Nat :=
  s.client_future_

/-- Modelled from the spec: `client()` rendezvouses on the shared future
and returns the terminal value; `none` while still pending. -/
def clientRead (c : ClientCell) : Option InitOutcome :=
  match c with
  | ClientCell.pending => none
  | ClientCell.ready h => some (InitOutcome.ready h)
  | ClientCell.failed e => some (InitOutcome.failed e)

/-- Modelled from the spec: one iteration of the `InitClient` retry loop
run by the single background thread.  The cooperative cancellation flag
is checked at the retry boundary: if it is set, the loop resolves the
future with a `Cancelled` error (a no-op if construction had already
succeeded) and exits.  Otherwise a successful attempt (`some handle`)
resolves the future and exits; a transient failure (`none`) retries.
Returns the new state and whether the loop continues. -/
def initClientStep (s : AsyncClientInitialiser) (attempt : Option Nat) :
    AsyncClientInitialiser × Bool :=
  if s.stopping_ then
    ({ s with client_promise_ :=
        resolveCell s.client_promise_ (InitOutcome.failed "Cancelled") }, false)
  else
    match attempt with
    | some h =>
      ({ s with client_promise_ :=
          resolveCell s.client_promise_ (InitOutcome.ready h) }, false)
    | none => (s, true)

/-- Modelled from the spec: the `InitClient` retry loop over a sequence
of attempt results. -/
def initClientLoop : AsyncClientInitialiser → List (Option Nat) → AsyncClientInitialiser
  | s, [] => s
  | s, a :: rest =>
    let r := initClientStep s a
    if r.2 then initClientLoop r.1 rest else r.1

/-- A sample initializer state whose construction has already succeeded
(used to instantiate the bootstrap theorems at a concrete input). -/
def sampleInit : AsyncClientInitialiser :=
  { client_builder_ := 0, client_promise_ := ClientCell.ready 3,
    client_future_ := 1, init_client_thread_ := 1, stopping_ := false }

theorem runEvents_append (l₁ l₂ : List Event) (s : SessionState) :
    runEvents (l₁ ++ l₂) s = (runEvents l₁ s).bind (fun s' => runEvents l₂ s') := by
  induction l₁ generalizing s with
  | nil => rfl
  | cons e es ih =>
    simp only [List.cons_append, runEvents, Option.bind_assoc]
    cases step e s with
    | none => rfl
    | some s' => simp [ih s']

theorem loopEvents_succ (K : Nat) (f : Nat → Mutation) (m : Nat) :
    loopEvents K f (m + 1) =
      loopEvents K f m ++ (Event.apply (f m) :: wflbfEvents K m) := by
  unfold loopEvents
  rw [List.range_succ, List.flatMap_append]
  simp

/-- Running the in-loop block for key `0` from the post-`preResolve`
state: the `Wait` returns immediately (the synchronizer was pre-resolved
with OK), and the flush carries the single buffered mutation. -/
theorem run_block_zero (K : Nat) (f : Nat → Mutation) :
    runEvents (Event.apply (f 0) :: wflbfEvents K 0) s0 = some (expMid K f 1) := by
  have h0 : 0 % K = 0 := Nat.zero_mod K
  simp only [wflbfEvents, h0, if_pos rfl]
  simp [runEvents, step, waitResult, s0, expMid, expFlushed, List.range']

/-- Running the in-loop block for a key `m ≥ 1` that is not a flush
point: the mutation is buffered onto the current batch. -/
theorem run_block_not_dvd (K : Nat) (f : Nat → Mutation) (m : Nat)
    (hm : 1 ≤ m) (hK : 0 < K) (hdvd : ¬ K ∣ m) :
    runEvents (Event.apply (f m) :: wflbfEvents K m) (expMid K f m) =
      some (expMid K f (m + 1)) := by
  have hmod : m % K ≠ 0 := fun h => hdvd ((Nat.dvd_iff_mod_eq_zero ..).mpr h)
  have hm0 : m ≠ 0 := by omega
  have hq : m / K = (m - 1) / K := by
    have := Nat.succ_div_of_not_dvd (a := m - 1) (b := K) (by
      rwa [Nat.sub_add_cancel hm])
    rwa [Nat.sub_add_cancel hm] at this
  have hle : (m - 1) / K * K ≤ m - 1 := Nat.div_mul_le_self (m - 1) K
  set q := (m - 1) / K with hqdef
  have harr : List.range' (q * K + 1) (m - q * K) =
      List.range' (q * K + 1) (m - 1 - q * K) ++ [m] := by
    have hc := @List.range'_concat 1 (q * K + 1) (m - 1 - q * K)
    have h1 : q * K + 1 + 1 * (m - 1 - q * K) = m := by omega
    have h2 : m - 1 - q * K + 1 = m - q * K := by omega
    rw [h1, h2] at hc
    exact hc
  simp only [wflbfEvents, if_neg hmod]
  simp only [runEvents, step, Option.bind_some, Option.bind]
  simp only [expMid, if_neg hm0, if_neg (by omega : ¬ m + 1 = 0),
    Nat.add_sub_cancel, hq]
  rw [harr]
  simp

/-- Running the in-loop block for a flush point `m = j*K ≥ 1`: the
`Wait` observes the completion of the previous flush, the synchronizer is
reset, and the `K` mutations buffered since then are flushed as one
batch. -/
theorem run_block_dvd (K : Nat) (f : Nat → Mutation) (m : Nat)
    (hm : 1 ≤ m) (hK : 0 < K) (hdvd : K ∣ m) :
    runEvents (Event.apply (f m) :: wflbfEvents K m) (expMid K f m) =
      some (expMid K f (m + 1)) := by
  have hmod : m % K = 0 := (Nat.dvd_iff_mod_eq_zero ..).mp hdvd
  have hm0 : m ≠ 0 := by omega
  have hq1 : m / K = (m - 1) / K + 1 := by
    have := Nat.succ_div_of_dvd (a := m - 1) (b := K) (by
      rwa [Nat.sub_add_cancel hm])
    rwa [Nat.sub_add_cancel hm] at this
  have hmK : m / K * K = m := Nat.div_mul_cancel hdvd
  have hle : (m - 1) / K * K ≤ m - 1 := Nat.div_mul_le_self (m - 1) K
  set q := (m - 1) / K with hqdef
  have hqm : q * K + K = m := by
    have h : (q + 1) * K = m := by rw [← hq1]; exact hmK
    rw [Nat.add_mul, Nat.one_mul] at h
    exact h
  have harr : (List.range' (q * K + 1) (m - 1 - q * K)).map f ++ [f m] =
      (List.range' (q * K + 1) K).map f := by
    have hc := @List.range'_concat 1 (q * K + 1) (m - 1 - q * K)
    have h1 : q * K + 1 + 1 * (m - 1 - q * K) = m := by omega
    have h2 : m - 1 - q * K + 1 = K := by omega
    rw [h1, h2] at hc
    rw [hc]
    simp
  have hbuf : m - (q + 1) * K = 0 := by
    rw [Nat.add_mul, Nat.one_mul]
    omega
  simp only [wflbfEvents, if_pos hmod]
  simp only [runEvents, step, waitResult, expMid, if_neg hm0,
    if_neg (by omega : ¬ m + 1 = 0), Nat.add_sub_cancel, hq1]
  simp [expFlushed, harr, hbuf, List.range']

/-- Running the whole inner loop over keys `0..m-1` from the
post-`preResolve` state reaches the closed-form mid state. -/
theorem run_loop (K : Nat) (f : Nat → Mutation) (m : Nat) (hK : 0 < K) :
    runEvents (loopEvents K f m) s0 = some (expMid K f m) := by
  induction m with
  | zero => simp [loopEvents, runEvents, expMid]
  | succ m ih =>
    rw [loopEvents_succ, runEvents_append, ih, Option.some_bind]
    rcases Nat.eq_zero_or_pos m with hm | hm
    · subst hm
      have h := run_block_zero K f
      simpa [expMid] using h
    · by_cases hdvd : K ∣ m
      · exact run_block_dvd K f m hm hK hdvd
      · exact run_block_not_dvd K f m hm hK hdvd

/-- Running a full pass (`preResolve`, the loop, the final
`WaitForLastBatchAndFlush(kSessionBatchSize, …)` — whose key is a
multiple of the batch size, so it waits for the outstanding flush and
flushes the remaining buffered mutations — and the final `Wait`)
reaches the closed-form final state. -/
theorem run_pass (K : Nat) (f : Nat → Mutation) (m : Nat) (hK : 0 < K) :
    runEvents (passEvents K f m) initState = some (expFinal K f m) := by
  have hKK : K % K = 0 := Nat.mod_self K
  show runEvents (Event.preResolve :: (loopEvents K f m ++ wflbfEvents K K ++ [Event.wait]))
      initState = some (expFinal K f m)
  have h1 : runEvents [Event.preResolve] initState = some s0 := by
    simp [runEvents, step, initState, s0]
  have hsplit : Event.preResolve :: (loopEvents K f m ++ wflbfEvents K K ++ [Event.wait]) =
      [Event.preResolve] ++ loopEvents K f m ++ (wflbfEvents K K ++ [Event.wait]) := by
    simp
  rw [hsplit, runEvents_append, runEvents_append, h1, Option.some_bind,
    run_loop K f m hK, Option.some_bind]
  simp only [wflbfEvents, hKK, if_pos rfl]
  rcases Nat.eq_zero_or_pos m with hm | hm
  · subst hm
    simp [expMid, expFinal, s0, runEvents, step, waitResult]
  · have hm0 : m ≠ 0 := by omega
    simp [expMid, expFinal, if_neg hm0, runEvents, step, waitResult]

/-! ### Structure of the flushed batches -/

theorem expFlushed_length (K : Nat) (f : Nat → Mutation) (q : Nat) :
    (expFlushed K f q).length = q + 1 := by
  induction q with
  | zero => rfl
  | succ q ih => simp [expFlushed, ih]

theorem expFlushed_flatten (K : Nat) (f : Nat → Mutation) (q : Nat) :
    (expFlushed K f q).flatten = (List.range (q * K + 1)).map f := by
  induction q with
  | zero => simp [expFlushed, List.range_succ]
  | succ q ih =>
    have happ := List.range'_append 0 (q * K + 1) K 1
    have harith : 0 + 1 * (q * K + 1) = q * K + 1 := by omega
    have harith2 : K + (q * K + 1) = (q + 1) * K + 1 := by
      rw [Nat.add_mul, Nat.one_mul]; omega
    rw [harith, harith2] at happ
    simp only [expFlushed, List.flatten_append, ih]
    rw [List.range_eq_range', List.range_eq_range', ← happ]
    simp

/-- The flushed-batch list in explicit form: the singleton batch for
key `0`, then one batch of `K` consecutive keys per in-loop flush. -/
theorem expFlushed_eq (K : Nat) (f : Nat → Mutation) (q : Nat) :
    expFlushed K f q =
      [f 0] :: (List.range q).map (fun i => (List.range' (i * K + 1) K).map f) := by
  induction q with
  | zero => simp [expFlushed]
  | succ q ih => rw [expFlushed, ih, List.range_succ]; simp

theorem expFinal_flatten (K : Nat) (f : Nat → Mutation) (m : Nat) (hK : 0 < K) :
    (expFinal K f m).flushed.flatten = (List.range m).map f := by
  rcases Nat.eq_zero_or_pos m with hm | hm
  · subst hm; simp [expFinal]
  · have hm0 : m ≠ 0 := by omega
    have hle : (m - 1) / K * K ≤ m - 1 := Nat.div_mul_le_self (m - 1) K
    set q := (m - 1) / K with hqdef
    have happ := List.range'_append 0 (q * K + 1) (m - 1 - q * K) 1
    have harith : 0 + 1 * (q * K + 1) = q * K + 1 := by omega
    have harith2 : m - 1 - q * K + (q * K + 1) = m := by omega
    rw [harith, harith2] at happ
    simp only [expFinal, if_neg hm0, List.flatten_append,
      expFlushed_flatten]
    rw [List.range_eq_range', List.range_eq_range', ← happ]
    simp

theorem expFinal_numFlushes (K : Nat) (f : Nat → Mutation) (m : Nat) (hm : 0 < m) :
    (expFinal K f m).flushed.length = (m - 1) / K + 2 := by
  have hm0 : m ≠ 0 := by omega
  simp [expFinal, if_neg hm0, expFlushed_length]

/-- In the final state of a pass, the number of completion signals
observed equals the number of flushes issued. -/
theorem expFinal_observed (K : Nat) (f : Nat → Mutation) (m : Nat) :
    (expFinal K f m).observed = (expFinal K f m).flushed.length := by
  rcases Nat.eq_zero_or_pos m with hm | hm
  · subst hm; simp [expFinal]
  · have hm0 : m ≠ 0 := by omega
    simp [expFinal, if_neg hm0, expFlushed_length]

/-! ### Discipline-checker lemmas -/

theorem disciplineRun_append (l₁ l₂ : List Event) (b : Bool) :
    disciplineRun (l₁ ++ l₂) b =
      (disciplineRun l₁ b).bind (disciplineRun l₂) := by
  induction l₁ generalizing b with
  | nil => rfl
  | cons e es ih =>
    cases e with
    | flushAsync =>
      show disciplineRun (Event.flushAsync :: (es ++ l₂)) b = _
      by_cases hb : b <;> simp [disciplineRun, hb, ih]
    | wait => simpa [disciplineRun] using ih false
    | preResolve => simpa [disciplineRun] using ih b
    | apply m => simpa [disciplineRun] using ih b
    | reset => simpa [disciplineRun] using ih b

theorem disciplineRun_wflbf (K key : Nat) (b : Bool) (es : List Event) :
    disciplineRun (wflbfEvents K key ++ es) b =
      disciplineRun es (if key % K = 0 then true else b) := by
  by_cases h : key % K = 0 <;> simp [wflbfEvents, h, disciplineRun]

theorem disciplineRun_loop (K : Nat) (f : Nat → Mutation) (m : Nat) :
    ∀ b, ∃ b', disciplineRun (loopEvents K f m) b = some b' := by
  induction m with
  | zero => exact fun b => ⟨b, rfl⟩
  | succ m ih =>
    intro b
    rw [loopEvents_succ, disciplineRun_append]
    obtain ⟨b', hb'⟩ := ih b
    rw [hb', Option.some_bind]
    by_cases h : m % K = 0
    · exact ⟨true, by simp [disciplineRun, wflbfEvents, h]⟩
    · exact ⟨b', by simp [disciplineRun, wflbfEvents, h]⟩

/-- The whole pass satisfies the at-most-one-outstanding-flush
discipline: every `FlushAsync` is preceded by a `Wait` that observed the
previous flush's completion. -/
theorem disciplineRun_pass (K : Nat) (f : Nat → Mutation) (m : Nat) (hK : 0 < K) :
    disciplineRun (passEvents K f m) false = some false := by
  have hKK : K % K = 0 := Nat.mod_self K
  show disciplineRun (Event.preResolve :: (loopEvents K f m ++ wflbfEvents K K ++ [Event.wait]))
      false = some false
  show disciplineRun (loopEvents K f m ++ wflbfEvents K K ++ [Event.wait]) false = some false
  rw [List.append_assoc, disciplineRun_append]
  obtain ⟨b', hb'⟩ := disciplineRun_loop K f m false
  rw [hb', Option.some_bind, disciplineRun_wflbf, if_pos hKK]
  rfl

/-! ### Read-path lemmas -/

theorem readRow_append (h₁ h₂ : List Mutation) (k : Nat) :
    readRow (h₁ ++ h₂) k = h₂.foldl (fun r mu => applyMut r mu k) (readRow h₁ k) := by
  simp [readRow, List.foldl_append]

/-- An insert of a different key does not affect the read of `k`. -/
theorem applyMut_ne (r : Option Row) (mu : Mutation) (k : Nat)
    (h : mu.row.key ≠ some k) : applyMut r mu k = r := by
  simp [applyMut, h]

/-- Reading key `k` after the base-data inserts of keys `0..N-1`:
present with the inserted values iff `k < N`. -/
theorem readRow_inserts (N k : Nat) :
    readRow ((List.range N).map insertMutation) k =
      if k < N then some { key := k, strVal := "TODO random string", int64Val := 0 }
      else none := by
  induction N with
  | zero => simp [readRow]
  | succ N ih =>
    rw [List.range_succ, List.map_append, readRow_append]
    simp only [List.map_cons, List.map_nil, List.foldl_cons, List.foldl_nil]
    rw [ih]
    by_cases hk : k = N
    · subst hk
      simp [applyMut, insertMutation, MakeRow]
    · have : (insertMutation N).row.key ≠ some k := by
        simp [insertMutation, MakeRow]
        omega
      rw [applyMut_ne _ _ _ this]
      by_cases hlt : k < N
      · rw [if_pos hlt, if_pos (by omega)]
      · rw [if_neg hlt, if_neg (by omega)]

/-- Applying a nonempty run of full-row updates (each sets every column)
for key `k` on an established row yields the values of the last update. -/
theorem foldl_updates (k : Nat) (r₀ : Row) (vs : List Nat) (hne : vs ≠ []) :
    (vs.map (fun v => updateMutation v k)).foldl
        (fun r mu => applyMut r mu k) (some r₀) =
      some { key := k, strVal := "TODO random string",
             int64Val := vs.getLast hne } := by
  induction vs generalizing r₀ with
  | nil => exact absurd rfl hne
  | cons v t ih =>
    simp only [List.map_cons, List.foldl_cons]
    have hstep : applyMut (some r₀) (updateMutation v k) k =
        some { key := k, strVal := "TODO random string", int64Val := v } := by
      simp [applyMut, updateMutation, MakeRow]
    rw [hstep]
    cases t with
    | nil => simp [List.getLast]
    | cons w t' =>
      rw [ih { key := k, strVal := "TODO random string", int64Val := v } (by simp)]
      simp [List.getLast_cons]

theorem le_getLast_of_pairwise (vs : List Nat) (hne : vs ≠ [])
    (hp : vs.Pairwise (· < ·)) : ∀ v ∈ vs, v ≤ vs.getLast hne := by
  induction vs with
  | nil => exact absurd rfl hne
  | cons x t ih =>
    intro v hv
    cases t with
    | nil =>
      simp at hv
      simp [hv, List.getLast]
    | cons w t' =>
      rw [List.getLast_cons (by simp)]
      rcases List.mem_cons.mp hv with rfl | hvt
      · have hlt : v < (w :: t').getLast (by simp) :=
          (List.pairwise_cons.mp hp).1 _ (List.getLast_mem _)
        exact le_of_lt hlt
      · exact ih (by simp) (List.pairwise_cons.mp hp).2 v hvt

/-- The distinct keys a scanner reports after the base-data inserts are
exactly `0..N-1`. -/
theorem scanKeys_inserts (N : Nat) :
    scanKeys ((List.range N).map insertMutation) = List.range N := by
  have h1 : ((List.range N).map insertMutation).filterMap (fun mu => mu.row.key) =
      List.range N := by
    rw [List.filterMap_map]
    have : ((fun mu : Mutation => mu.row.key) ∘ insertMutation) = some := by
      funext k
      simp [insertMutation, MakeRow]
    rw [this, List.filterMap_some]
  rw [scanKeys, h1]
  exact (List.nodup_range N).dedup

/-! ### Scanner drain lemmas -/

theorem drainScan_le (bs : Nat) (hbs : 0 < bs) :
    ∀ (n : Nat) (s : YBScanner), s.remaining.length ≤ n →
      drainScan bs hbs s = (s.remaining, ⟨[]⟩) := by
  intro n
  induction n with
  | zero =>
    intro s hs
    have hnil : s.remaining = [] := List.eq_nil_of_length_eq_zero (Nat.le_zero.mp hs)
    rw [drainScan, dif_pos (by simp [hnil])]
    cases s
    simp_all
  | succ n ih =>
    intro s hs
    by_cases h : s.remaining.isEmpty = true
    · have hnil : s.remaining = [] := by simpa using h
      rw [drainScan, dif_pos h]
      cases s
      simp_all
    · rw [drainScan, dif_neg (by simpa using h)]
      have hne : s.remaining ≠ [] := by simpa using h
      have hlen : (NextBatch bs s).2.remaining.length ≤ n := by
        simp only [NextBatch, List.length_drop]
        have : 0 < s.remaining.length := List.length_pos.mpr hne
        omega
      simp only [ih _ hlen]
      simp [NextBatch, List.take_append_drop]

theorem drainScan_eq (bs : Nat) (hbs : 0 < bs) (s : YBScanner) :
    drainScan bs hbs s = (s.remaining, ⟨[]⟩) :=
  drainScan_le bs hbs s.remaining.length s le_rfl

/-! ### Async-bootstrap lemmas -/

theorem resolveCell_terminal (c : ClientCell) (o : InitOutcome)
    (hc : c ≠ ClientCell.pending) : resolveCell c o = c := by
  cases c with
  | pending => exact absurd rfl hc
  | ready h => cases o <;> rfl
  | failed e => cases o <;> rfl

/-- No iteration of the retry loop ever touches the shared future handle:
every call to `get_client_future` returns the identical future. -/
theorem initClientLoop_future (l : List (Option Nat)) :
    ∀ s, get_client_future (initClientLoop s l) = get_client_future s := by
  induction l with
  | nil => intro s; rfl
  | cons a rest ih =>
    intro s
    show get_client_future
        (if (initClientStep s a).2 then initClientLoop (initClientStep s a).1 rest
         else (initClientStep s a).1) = _
    by_cases hstop : s.stopping_
    · simp [initClientStep, hstop, get_client_future, Shutdown]
    · cases a with
      | some h => simp [initClientStep, hstop, get_client_future]
      | none => simpa [initClientStep, hstop] using ih s

/-- Once the cell is terminal, the retry loop never changes it: a second
construction attempt is never triggered and every caller observes the
same terminal value. -/
theorem initClientLoop_terminal (l : List (Option Nat)) :
    ∀ s, s.client_promise_ ≠ ClientCell.pending →
      (initClientLoop s l).client_promise_ = s.client_promise_ := by
  induction l with
  | nil => intro s _; rfl
  | cons a rest ih =>
    intro s hs
    show (if (initClientStep s a).2 then initClientLoop (initClientStep s a).1 rest
         else (initClientStep s a).1).client_promise_ = _
    by_cases hstop : s.stopping_
    · simp [initClientStep, hstop, resolveCell_terminal _ _ hs]
    · cases a with
      | some h => simp [initClientStep, hstop, resolveCell_terminal _ _ hs]
      | none => simpa [initClientStep, hstop] using ih s hs

/-! ### The claims -/

/-- C1: For every run of the write loop — the base-data insert pass and
any update pass, stopped after any number of keys — at most one flush is
outstanding per Write Session at any time: the event trace never issues
a `FlushAsync` before the completion of the previously issued flush has
been observed by a `Wait` on the synchronizer (the wait/flush pair fires
exactly at the keys that are multiples of the session batch size), and
the full run of the session state machine succeeds under this
discipline. -/
theorem C1_at_most_one_outstanding_flush (N K stopAt iteration : Nat)
    (hK : 0 < K) :
    (disciplineRun (insertEvents N K) false).isSome = true ∧
    (disciplineRun (updatePassEvents N K stopAt iteration) false).isSome = true ∧
    runEvents (insertEvents N K) initState =
      some (expFinal K insertMutation N) := by
  refine ⟨?_, ?_, run_pass K insertMutation N hK⟩
  · rw [insertEvents, disciplineRun_pass K _ N hK]
    rfl
  · rw [updatePassEvents, disciplineRun_append,
      disciplineRun_pass K _ _ hK, Option.some_bind]
    rfl

/-- Witness for C1 at `N = 5`, `K = 2`, stop after 3 keys, iteration 1. -/
theorem C1_witness :
    0 < 2 ∧
    ((disciplineRun (insertEvents 5 2) false).isSome = true ∧
     (disciplineRun (updatePassEvents 5 2 3 1) false).isSome = true ∧
     runEvents (insertEvents 5 2) initState =
       some (expFinal 2 insertMutation 5)) :=
  ⟨by decide, C1_at_most_one_outstanding_flush 5 2 3 1 (by decide)⟩

/-- C2: After a history that establishes the row for key `k`, applying a
sequence of full-row Updates carrying strictly increasing iteration
values (their position in the flushed history is their delta sequence
number), a Scanner opened after all of them complete reads for key `k`
the value of the highest iteration — the last one, which bounds every
other applied value — never an intermediate value (per-column
last-writer-wins by sequence number). -/
theorem C2_scan_returns_highest_iteration (hist : List Mutation) (k : Nat)
    (r₀ : Row) (hbase : readRow hist k = some r₀)
    (vs : List Nat) (hne : vs ≠ []) (hinc : vs.Pairwise (· < ·)) :
    readRow (hist ++ vs.map (fun v => updateMutation v k)) k =
      some { key := k, strVal := "TODO random string",
             int64Val := vs.getLast hne } ∧
    ∀ v ∈ vs, v ≤ vs.getLast hne := by
  constructor
  · rw [readRow_append, hbase]
    exact foldl_updates k r₀ vs hne
  · exact le_getLast_of_pairwise vs hne hinc

/-- Witness for C2: insert key 42, then updates with iteration values
1..5; the scanned row for key 42 holds the value from iteration 5. -/
theorem C2_witness :
    (readRow [insertMutation 42] 42 =
      some { key := 42, strVal := "TODO random string", int64Val := 0 }) ∧
    (([1, 2, 3, 4, 5] : List Nat) ≠ []) ∧
    (([1, 2, 3, 4, 5] : List Nat).Pairwise (· < ·)) ∧
    (readRow ([insertMutation 42] ++
        ([1, 2, 3, 4, 5] : List Nat).map (fun v => updateMutation v 42)) 42 =
      some { key := 42, strVal := "TODO random string", int64Val := 5 } ∧
     ∀ v ∈ ([1, 2, 3, 4, 5] : List Nat), v ≤ 5) :=
  ⟨by decide, by decide, by decide,
   C2_scan_returns_highest_iteration [insertMutation 42] 42
     { key := 42, strVal := "TODO random string", int64Val := 0 }
     (by decide) [1, 2, 3, 4, 5] (by decide) (by decide)⟩

/-- C3 counterexample: inserting keys `0..999` with batch size 100 under
the code's wait-then-flush-on-multiples discipline issues 11 flushes —
the in-loop flush at key 0 plus one per later multiple of 100 plus the
post-loop flush — not `1000 / 100 = 10` as claimed. -/
theorem C3_counterexample :
    (runEvents (insertEvents 1000 100) initState).map
        (fun s => s.flushed.length) = some 11 ∧
    ¬ (runEvents (insertEvents 1000 100) initState).map
        (fun s => s.flushed.length) = some (1000 / 100) := by
  have h : runEvents (insertEvents 1000 100) initState =
      some (expFinal 100 insertMutation 1000) :=
    run_pass 100 insertMutation 1000 (by norm_num)
  have hlen : (expFinal 100 insertMutation 1000).flushed.length = 11 := by
    rw [expFinal_numFlushes 100 insertMutation 1000 (by norm_num)]
  constructor
  · rw [h]
    simp [hlen]
  · rw [h]
    simp [hlen]

/-- C3 amended: inserting keys `0..N-1` through a manual-flush Write
Session with the wait-then-flush-every-K-applies discipline (`K`
dividing `N`) causes exactly `N / K + 1` flushes — the flush of the
single-mutation batch at key 0, one per later multiple of `K`, and the
post-loop flush of the remainder — each waited on before the next is
issued; a subsequent Scanner returns exactly `N` distinct keys (for
`N = 1000`, `K = 100`: 11 flushes and 1000 distinct keys) with their
inserted values. -/
theorem C3_flush_count_and_scan (N K : Nat) (hK : 0 < K) (hN : 0 < N)
    (hdvd : K ∣ N) :
    runEvents (insertEvents N K) initState = some (expFinal K insertMutation N) ∧
    (disciplineRun (insertEvents N K) false).isSome = true ∧
    (expFinal K insertMutation N).flushed.length = N / K + 1 ∧
    scanKeys (expFinal K insertMutation N).flushed.flatten = List.range N ∧
    (List.range N).length = N ∧ (List.range N).Nodup ∧
    ∀ k, k < N →
      readRow (expFinal K insertMutation N).flushed.flatten k =
        some { key := k, strVal := "TODO random string", int64Val := 0 } := by
  have hflat := expFinal_flatten K insertMutation N hK
  refine ⟨run_pass K insertMutation N hK, ?_, ?_, ?_, List.length_range N,
    List.nodup_range N, ?_⟩
  · rw [insertEvents, disciplineRun_pass K _ N hK]
    rfl
  · rw [expFinal_numFlushes K insertMutation N hN]
    have hsd : N / K = (N - 1) / K + 1 := by
      have h := Nat.succ_div_of_dvd (a := N - 1) (b := K)
        (by rwa [Nat.sub_add_cancel hN])
      rwa [Nat.sub_add_cancel hN] at h
    omega
  · rw [hflat]
    exact scanKeys_inserts N
  · intro k hk
    rw [hflat, readRow_inserts, if_pos hk]

/-- Witness for C3's amended statement at `N = 1000`, `K = 100`. -/
theorem C3_witness :
    0 < 100 ∧ 0 < 1000 ∧ 100 ∣ 1000 ∧
    (runEvents (insertEvents 1000 100) initState =
        some (expFinal 100 insertMutation 1000) ∧
     (disciplineRun (insertEvents 1000 100) false).isSome = true ∧
     (expFinal 100 insertMutation 1000).flushed.length = 1000 / 100 + 1 ∧
     scanKeys (expFinal 100 insertMutation 1000).flushed.flatten =
       List.range 1000 ∧
     (List.range 1000).length = 1000 ∧ (List.range 1000).Nodup ∧
     ∀ k, k < 1000 →
       readRow (expFinal 100 insertMutation 1000).flushed.flatten k =
         some { key := k, strVal := "TODO random string", int64Val := 0 }) :=
  ⟨by norm_num, by norm_num, by norm_num,
   C3_flush_count_and_scan 1000 100 (by norm_num) (by norm_num) (by norm_num)⟩

/-- C6: Waiting on an already-resolved flush completion signal returns
immediately with the resolved status: the synchronizer cell is consulted,
its status handed back, and no blocking or completion consumption
happens (only the immediate-return counter moves).  In particular (see
the witness) the very first `WaitForLastBatchAndFlush` call of
`InsertBaseData` (key 0) finds the synchronizer pre-resolved with OK by
`last_s_cb.Run(Status::OK())` and succeeds without blocking. -/
theorem C6_wait_on_resolved_is_immediate (s : SessionState) (st : Status)
    (h : s.resolved = some st) :
    waitResult s = some (st, { s with immediateWaits := s.immediateWaits + 1 }) := by
  simp [waitResult, h]

/-- Witness for C6: the state reached in `InsertBaseData` right before
the first `Wait` (after `last_s_cb.Run(Status::OK())` and
`Apply(insert key 0)`) is resolved with OK, and the `Wait` returns OK
immediately. -/
theorem C6_witness :
    runEvents [Event.preResolve, Event.apply (insertMutation 0)] initState =
      some { resolved := some Status.ok, outstanding := false,
             buffered := [insertMutation 0], flushed := [], observed := 0,
             immediateWaits := 0 } ∧
    waitResult { resolved := some Status.ok, outstanding := false,
                 buffered := [insertMutation 0], flushed := [], observed := 0,
                 immediateWaits := 0 } =
      some (Status.ok,
        { resolved := some Status.ok, outstanding := false,
          buffered := [insertMutation 0], flushed := [], observed := 0,
          immediateWaits := 1 }) :=
  ⟨by decide,
   C6_wait_on_resolved_is_immediate
     { resolved := some Status.ok, outstanding := false,
       buffered := [insertMutation 0], flushed := [], observed := 0,
       immediateWaits := 0 } Status.ok rfl⟩

/-- C7: Every mutation built by `MakeRow` against the test schema sets
all three NOT NULL columns including the primary key, so the fail-fast
`SchemaMismatch`/`InvalidPrimaryKey` branches of `Apply` are unreachable
for it — for the base-data inserts and for every update pass alike. -/
theorem C7_MakeRow_never_fails_apply_checks (key val iteration : Nat) :
    applyCheck (MakeRow key val) = none ∧
    applyCheck (insertMutation key).row = none ∧
    applyCheck (updateMutation iteration key).row = none := by
  refine ⟨?_, ?_, ?_⟩ <;>
    simp [applyCheck, MakeRow, insertMutation, updateMutation]

/-- C8: For every opened Scanner the drain loop of `ScanRows` — call
`NextBatch` while `HasMoreRows` — terminates, returning the finite row
sequence of the pinned snapshot; afterwards `HasMoreRows` is false, and
once exhausted `NextBatch` produces nothing and changes nothing, so the
sequence is non-restartable and re-reading requires a new Scanner. -/
theorem C8_scan_drain_terminates (bs : Nat) (hbs : 0 < bs) (s : YBScanner) :
    drainScan bs hbs s = (s.remaining, ⟨[]⟩) ∧
    HasMoreRows (drainScan bs hbs s).2 = false ∧
    ∀ s', HasMoreRows s' = false → NextBatch bs s' = ([], s') := by
  have hd := drainScan_eq bs hbs s
  refine ⟨hd, ?_, ?_⟩
  · rw [hd]
    rfl
  · intro s' hs'
    have hnil : s'.remaining = [] := by
      simpa [HasMoreRows] using hs'
    cases s'
    simp_all [NextBatch]

/-- Witness for C8 with batch size 2 and a three-row snapshot. -/
theorem C8_witness :
    0 < 2 ∧
    (drainScan 2 (by norm_num)
        ⟨[{ key := 0, strVal := "a", int64Val := 1 },
          { key := 1, strVal := "b", int64Val := 2 },
          { key := 2, strVal := "c", int64Val := 3 }]⟩ =
      ([{ key := 0, strVal := "a", int64Val := 1 },
        { key := 1, strVal := "b", int64Val := 2 },
        { key := 2, strVal := "c", int64Val := 3 }], ⟨[]⟩) ∧
     HasMoreRows (drainScan 2 (by norm_num)
        ⟨[{ key := 0, strVal := "a", int64Val := 1 },
          { key := 1, strVal := "b", int64Val := 2 },
          { key := 2, strVal := "c", int64Val := 3 }]⟩).2 = false ∧
     ∀ s', HasMoreRows s' = false → NextBatch 2 s' = ([], s')) :=
  ⟨by norm_num,
   C8_scan_drain_terminates 2 (by norm_num)
     ⟨[{ key := 0, strVal := "a", int64Val := 1 },
       { key := 1, strVal := "b", int64Val := 2 },
       { key := 2, strVal := "c", int64Val := 3 }]⟩⟩

/-- C9: In the insert loop the flush trigger is checked after `Apply`
and keyed on the key value (`key % kSessionBatchSize == 0`), not on a
count of buffered mutations: the first flushed batch is exactly the
single mutation for key 0, each subsequent in-loop batch holds exactly
`K` consecutive keys, and the post-loop flush carries the remaining
keys. -/
theorem C9_flush_batch_structure (N K : Nat) (hK : 0 < K) (hN : 0 < N) :
    runEvents (insertEvents N K) initState = some (expFinal K insertMutation N) ∧
    (expFinal K insertMutation N).flushed =
      [insertMutation 0] ::
        ((List.range ((N - 1) / K)).map
            (fun i => (List.range' (i * K + 1) K).map insertMutation) ++
          [(List.range' ((N - 1) / K * K + 1) (N - 1 - (N - 1) / K * K)).map
            insertMutation]) ∧
    ∀ b ∈ (List.range ((N - 1) / K)).map
        (fun i => (List.range' (i * K + 1) K).map insertMutation),
      b.length = K := by
  have hN0 : N ≠ 0 := by omega
  refine ⟨run_pass K insertMutation N hK, ?_, ?_⟩
  · simp [expFinal, if_neg hN0, expFlushed_eq]
  · intro b hb
    simp only [List.mem_map] at hb
    obtain ⟨i, _, rfl⟩ := hb
    simp

/-- Witness for C9 at `N = 6`, `K = 2`: batches `[0]`, `[1,2]`, `[3,4]`,
remainder `[5]`. -/
theorem C9_witness :
    0 < 2 ∧ 0 < 6 ∧
    (runEvents (insertEvents 6 2) initState =
        some (expFinal 2 insertMutation 6) ∧
     (expFinal 2 insertMutation 6).flushed =
       [insertMutation 0] ::
         ((List.range ((6 - 1) / 2)).map
             (fun i => (List.range' (i * 2 + 1) 2).map insertMutation) ++
           [(List.range' ((6 - 1) / 2 * 2 + 1) (6 - 1 - (6 - 1) / 2 * 2)).map
             insertMutation]) ∧
     ∀ b ∈ (List.range ((6 - 1) / 2)).map
         (fun i => (List.range' (i * 2 + 1) 2).map insertMutation),
       b.length = 2) :=
  ⟨by norm_num, by norm_num,
   C9_flush_batch_structure 6 2 (by norm_num) (by norm_num)⟩

/-- C10: When the stop latch fires in the middle of an update pass (the
inner loop exits after any number `stopAt` of keys), the pass still
drains cleanly: the trace's final `WaitForLastBatchAndFlush`, `Wait` and
`Reset` succeed, on exit nothing is left buffered and no flush is
outstanding, every applied update was submitted in some flushed batch,
and the completion signal of every issued flush was observed by exactly
one blocking `Wait`. -/
theorem C10_update_pass_drains_cleanly (N K stopAt iteration : Nat)
    (hK : 0 < K) :
    runEvents (updatePassEvents N K stopAt iteration) initState =
      some { expFinal K (updateMutation iteration) (min stopAt N) with
             resolved := none } ∧
    (expFinal K (updateMutation iteration) (min stopAt N)).buffered = [] ∧
    (expFinal K (updateMutation iteration) (min stopAt N)).outstanding = false ∧
    (expFinal K (updateMutation iteration) (min stopAt N)).flushed.flatten =
      (List.range (min stopAt N)).map (updateMutation iteration) ∧
    (expFinal K (updateMutation iteration) (min stopAt N)).observed =
      (expFinal K (updateMutation iteration) (min stopAt N)).flushed.length := by
  set m := min stopAt N with hm
  refine ⟨?_, ?_, ?_, expFinal_flatten K _ m hK, expFinal_observed K _ m⟩
  · rw [updatePassEvents, runEvents_append, ← hm,
      run_pass K (updateMutation iteration) m hK, Option.some_bind]
    simp [runEvents, step]
  · rcases Nat.eq_zero_or_pos m with h0 | h0
    · rw [h0]; rfl
    · have : m ≠ 0 := by omega
      simp [expFinal, this]
  · rcases Nat.eq_zero_or_pos m with h0 | h0
    · rw [h0]; rfl
    · have : m ≠ 0 := by omega
      simp [expFinal, this]

/-- Witness for C10 at `N = 10`, `K = 3`, stop after 5 keys,
iteration 2. -/
theorem C10_witness :
    0 < 3 ∧
    (runEvents (updatePassEvents 10 3 5 2) initState =
        some { expFinal 3 (updateMutation 2) (min 5 10) with resolved := none } ∧
     (expFinal 3 (updateMutation 2) (min 5 10)).buffered = [] ∧
     (expFinal 3 (updateMutation 2) (min 5 10)).outstanding = false ∧
     (expFinal 3 (updateMutation 2) (min 5 10)).flushed.flatten =
       (List.range (min 5 10)).map (updateMutation 2) ∧
     (expFinal 3 (updateMutation 2) (min 5 10)).observed =
       (expFinal 3 (updateMutation 2) (min 5 10)).flushed.length) :=
  ⟨by norm_num, C10_update_pass_drains_cleanly 10 3 5 2 (by norm_num)⟩

/-- C4: The Async Bootstrap's shared result cell is single-assignment:
a pending cell moves to a terminal state on the first resolution, a
second resolution is a no-op, and a terminal cell is never reassigned;
every call to `get_client_future` returns the identical shared future
(`Shutdown` and the retry loop never touch it), the structure owns a
single background thread, and once the cell is terminal the retry loop
triggers no further construction, so all callers of `client()` observe
the same terminal value through the one cell. -/
theorem C4_one_shot_shared_result_cell (o o' : InitOutcome) (c : ClientCell)
    (s : AsyncClientInitialiser) (l : List (Option Nat))
    (hc : c ≠ ClientCell.pending)
    (hs : s.client_promise_ ≠ ClientCell.pending) :
    resolveCell ClientCell.pending o ≠ ClientCell.pending ∧
    resolveCell (resolveCell ClientCell.pending o) o' =
      resolveCell ClientCell.pending o ∧
    resolveCell c o = c ∧
    get_client_future (Shutdown s) = get_client_future s ∧
    (∀ l₀ s₀, get_client_future (initClientLoop s₀ l₀) = get_client_future s₀) ∧
    (initClientLoop s l).client_promise_ = s.client_promise_ ∧
    clientRead (initClientLoop s l).client_promise_ =
      clientRead s.client_promise_ := by
  refine ⟨?_, ?_, resolveCell_terminal c o hc, rfl, initClientLoop_future,
    initClientLoop_terminal l s hs, ?_⟩
  · cases o <;> simp [resolveCell]
  · cases o <;> cases o' <;> simp [resolveCell]
  · rw [initClientLoop_terminal l s hs]

/-- Witness for C4 at a concrete terminal cell and state. -/
theorem C4_witness :
    (ClientCell.ready 3 ≠ ClientCell.pending) ∧
    (sampleInit.client_promise_ ≠ ClientCell.pending) ∧
    (resolveCell ClientCell.pending (InitOutcome.ready 7) ≠ ClientCell.pending ∧
     resolveCell (resolveCell ClientCell.pending (InitOutcome.ready 7))
         (InitOutcome.failed "x") =
       resolveCell ClientCell.pending (InitOutcome.ready 7) ∧
     resolveCell (ClientCell.ready 3) (InitOutcome.ready 7) = ClientCell.ready 3 ∧
     get_client_future (Shutdown sampleInit) = get_client_future sampleInit ∧
     (∀ l₀ s₀, get_client_future (initClientLoop s₀ l₀) = get_client_future s₀) ∧
     (initClientLoop sampleInit [none, some 5]).client_promise_ =
       sampleInit.client_promise_ ∧
     clientRead (initClientLoop sampleInit [none, some 5]).client_promise_ =
       clientRead sampleInit.client_promise_) :=
  ⟨by decide, by decide,
   C4_one_shot_shared_result_cell (InitOutcome.ready 7) (InitOutcome.failed "x")
     (ClientCell.ready 3) sampleInit [none, some 5] (by decide) (by decide)⟩

/-- C5: `Shutdown()` only sets the cooperative cancellation flag: it
changes no other field of the initializer (it does not resolve the
promise, touch the future, or join the thread), and the retry loop
observes the flag at its next check point, exits, and resolves the
future with a `Cancelled` error if construction had not already
succeeded (a terminal cell is left untouched). -/
theorem C5_shutdown_only_sets_stopping (s : AsyncClientInitialiser)
    (a : Option Nat) :
    (Shutdown s).stopping_ = true ∧
    (Shutdown s).client_builder_ = s.client_builder_ ∧
    (Shutdown s).client_promise_ = s.client_promise_ ∧
    (Shutdown s).client_future_ = s.client_future_ ∧
    (Shutdown s).init_client_thread_ = s.init_client_thread_ ∧
    (initClientStep (Shutdown s) a).2 = false ∧
    (initClientStep (Shutdown s) a).1.client_promise_ =
      resolveCell s.client_promise_ (InitOutcome.failed "Cancelled") := by
  refine ⟨rfl, rfl, rfl, rfl, rfl, ?_, ?_⟩ <;> simp [initClientStep, Shutdown]

end YB
